import Mathlib

/-!
Verification of the synchronization, duration-fitting, caching and batched
generation logic of the Edge TTS subtitle dubbing program (src/main.py).

Modelling decisions:
- real-valued quantities (seconds, ratios) are rationals; the Python code
  uses binary floats, but no claim here depends on float rounding;
- a waveform is a list of rational samples;
- external effects are explicit oracles: loading an audio file and the
  audiostretchy stretch primitive are an environment of type StretchEnv,
  the TTS backend is a per-attempt outcome function, and filesystem facts
  (raw clip exists, cache file exists, a copy succeeds) are Boolean fields
  or functions supplied with each cue;
- the md5 digest of the lowercased text is modelled by the lowercased text
  itself (the digest is assumed collision-free);
- numpy silence buffers are lists of zero samples; np.zeros rejects a
  negative size, so theorems that touch the failed-generation fallback
  assume a well-formed cue (end time not before start time), matching the
  domain on which the Python code does not raise.
-/

/-- Subtitle text, modelled as a list of characters. -/
abbrev Text := List Char

/-- A waveform: a list of samples. -/
abbrev Wave := List ℚ

/-- Python int() applied to a rational: truncation toward zero. -/
def pyInt (q : ℚ) : ℤ := if 0 ≤ q then ⌊q⌋ else ⌈q⌉

/-- np.zeros n, a silence chunk of n samples. -/
def silence (n : ℕ) : Wave := List.replicate n 0

/-- Python str.strip(): drop whitespace at both ends. -/
def pyStrip (s : Text) : Text :=
  ((s.dropWhile Char.isWhitespace).reverse.dropWhile Char.isWhitespace).reverse

/-- The per-cue text normalization of main.py:
sub.text.replace(newline, space).strip(). -/
def normalizeText (s : Text) : Text :=
  pyStrip (s.map fun c => if c = '\n' then ' ' else c)

/-- Python str.lower() (ASCII model). The cache key of a normalized text is
the md5 digest of its lowercased form; the digest is modelled by the
lowercased text itself, assumed collision-free. -/
def pyLower (s : Text) : Text := s.map Char.toLower

/-- One step of splitting a character list into whitespace-separated words:
the accumulator carries finished words and the current word reversed. -/
def wordsStep (acc : List Text × Text) (c : Char) : List Text × Text :=
  if c.isWhitespace then
    match acc with
    | (ws, []) => (ws, [])
    | (ws, w) => (ws ++ [w.reverse], [])
  else (acc.1, c :: acc.2)

/-- Split a character list into its maximal whitespace-free words. -/
def wordsOf (s : Text) : List Text :=
  match s.foldl wordsStep ([], []) with
  | (ws, []) => ws
  | (ws, w) => ws ++ [w.reverse]

/-- Modelled from the spec: the normalization the spec ascribes to the
CacheKey, a lowercased and whitespace-collapsed cue text (runs of
whitespace become a single space, ends trimmed). The source code does not
implement this; the definition exists to compare the spec against the
code. -/
def specNormalize (s : Text) : Text :=
  List.intercalate [' '] (wordsOf (pyLower s))

/-- Audio processing constants of main.py. -/
def SAMPLE_RATE : ℕ := 24000

/-- Seconds threshold for detecting subtitle overlap. -/
def OVERLAP_THRESHOLD : ℚ := 1/100

/-- Seconds minimum duration for late-start segments. -/
def MIN_SEGMENT_DURATION : ℚ := 1/20

/-- Seconds threshold for adding final padding. -/
def FINAL_PADDING_THRESHOLD : ℚ := 1/100

/-- Seconds threshold for warning about excess audio. -/
def EXCESS_AUDIO_WARNING_THRESHOLD : ℚ := 1

/-- Oracle for the external effects of adjust_audio_length:
load is the result of librosa.load on the raw clip (none on failure);
stretch maps the requested ratio to the reloaded output of stretch_audio
(none when the stretch step raises). -/
structure StretchEnv where
  load : Option Wave
  stretch : ℚ → Option Wave

/-- The clamped stretch ratio computed by adjust_audio_length:
ratio = desired / current, clamped from below to 1 / max_speed_factor. -/
def ratioFor (yLen : ℕ) (desired : ℚ) (sr : ℕ) (msf : ℚ) : ℚ :=
  let cur : ℚ := (yLen : ℚ) / (sr : ℚ)
  let r0 := desired / cur
  let rmin := 1 / msf
  if r0 < rmin then rmin else r0

/-- The trim-or-pad block of adjust_audio_length: zero-pad when short,
crop when long, so the result has exactly t samples. -/
def padCrop (ys : Wave) (t : ℕ) : Wave :=
  if ys.length < t then ys ++ List.replicate (t - ys.length) 0
  else if t < ys.length then ys.take t
  else ys

/-- adjust_audio_length from main.py. Returns an empty array when the load
fails; returns the loaded clip unchanged when desired_length is not
positive or when the stretch step fails; otherwise stretches at the
clamped ratio and pads or crops to int(desired_length * sample_rate)
samples. -/
def adjust_audio_length (env : StretchEnv) (desired : ℚ) (sr : ℕ) (msf : ℚ) : Wave :=
  match env.load with
  | none => []
  | some y =>
    if desired ≤ 0 then y
    else
      match env.stretch (ratioFor y.length desired sr msf) with
      | none => y
      | some ys => padCrop ys (pyInt (desired * (sr : ℚ))).toNat

/-- The retry loop of generate_audio_segment: attempt i is attemptErr i
(none on success, some e on a raised error); fuel counts the retries still
allowed after the current attempt. The loop runs retries + 1 attempts and
surfaces the last error. -/
def genRetryAux {E : Type} (attemptErr : ℕ → Option E) : ℕ → ℕ → Option E
  | i, 0 => attemptErr i
  | i, fuel + 1 =>
    match attemptErr i with
    | none => none
    | some _ => genRetryAux attemptErr (i + 1) fuel

/-- generate_audio_segment from main.py, reduced to its retry structure:
returns none when some attempt among the retries + 1 attempts succeeds,
and the final error otherwise. -/
def generate_audio_segment {E : Type} (attemptErr : ℕ → Option E) (retries : ℕ) : Option E :=
  genRetryAux attemptErr 0 retries

/-- generate_audio_batch from main.py: every submitted index is mapped to
the outcome of its generate_audio_segment call; the inner generate_one
catches the exception and records it, so a failure never propagates. The
windowed dispatch does not change the resulting mapping, so the model maps
directly. -/
def generate_audio_batch {E : Type} (items : List ℕ) (attemptErr : ℕ → ℕ → Option E)
    (retries : ℕ) : List (ℕ × Option E) :=
  items.map fun idx => (idx, generate_audio_segment (attemptErr idx) retries)

/-- One subtitle cue together with the oracles the run consults for it:
existsRaw says whether a non-empty per-cue raw clip already exists on disk
before the run, copyOk whether a cache-to-raw copy for this cue succeeds,
failed whether the generation outcome recorded for this cue is an error,
and env drives adjust_audio_length on the raw clip of this cue. -/
structure Cue where
  start_sec : ℚ
  end_sec : ℚ
  text : Text
  existsRaw : Bool
  copyOk : Bool
  failed : Bool
  env : StretchEnv

/-- Well-formed cue: timestamps in order and, when the raw clip loads, a
non-empty waveform. On this domain the Python code raises no exception
(np.zeros of a negative size, float division by zero). -/
def WFCue (c : Cue) : Prop :=
  0 ≤ c.start_sec ∧ c.start_sec ≤ c.end_sec ∧ c.env.load ≠ some []

instance (c : Cue) : Decidable (WFCue c) := by
  unfold WFCue; exact inferInstance

/-- All cues of a list are well-formed. -/
def WFCues (l : List Cue) : Prop := ∀ c ∈ l, WFCue c

instance (l : List Cue) : Decidable (WFCues l) := by
  unfold WFCues; exact List.decidableBAll _ l

/-- The mutable state of the synchronization pass: the accumulation buffer
audio_segments, current_total_samples, and the statistics counters the
pass touches. -/
structure EngineState where
  segments : List Wave
  total : ℕ
  overlaps : ℕ
  empty : ℕ
  late_starts : ℕ

/-- Initial engine state: empty buffer, zero clock and counters. -/
def initState : EngineState := ⟨[], 0, 0, 0, 0⟩

/-- current_total_samples / SAMPLE_RATE, the output clock in seconds. -/
def clockSec (n : ℕ) : ℚ := (n : ℚ) / (SAMPLE_RATE : ℚ)

/-- Sum of the sample counts of the accumulated chunks. -/
def sumLen (l : List Wave) : ℕ := (l.map List.length).sum

/-- Pre-gap handling of the synchronization loop: positive gap appends
silence and advances the clock; gap below -OVERLAP_THRESHOLD only records
an overlap; otherwise no change. -/
def preGapStep (st : EngineState) (c : Cue) : EngineState :=
  let gap := c.start_sec - clockSec st.total
  if 0 < gap then
    let n := (pyInt (gap * (SAMPLE_RATE : ℚ))).toNat
    { st with segments := st.segments ++ [silence n], total := st.total + n }
  else if gap < -OVERLAP_THRESHOLD then
    { st with overlaps := st.overlaps + 1 }
  else st

/-- The body of the synchronization loop after pre-gap handling: the empty
text branch fills up to end_sec when that lies ahead of the clock, the
failed branch appends span seconds of silence, and the fit branch appends
the adjusted waveform, counting a late start when the remaining time is
below MIN_SEGMENT_DURATION. -/
def mainStep (msf : ℚ) (st : EngineState) (c : Cue) : EngineState :=
  let text := normalizeText c.text
  if text = [] then
    let needed := c.end_sec - clockSec st.total
    if 0 < needed then
      let n := (pyInt (needed * (SAMPLE_RATE : ℚ))).toNat
      { st with segments := st.segments ++ [silence n], total := st.total + n,
                empty := st.empty + 1 }
    else { st with empty := st.empty + 1 }
  else if c.failed then
    let n := (pyInt ((c.end_sec - c.start_sec) * (SAMPLE_RATE : ℚ))).toNat
    { st with segments := st.segments ++ [silence n], total := st.total + n }
  else
    let target0 := c.end_sec - clockSec st.total
    let late := target0 < MIN_SEGMENT_DURATION
    let target := if late then MIN_SEGMENT_DURATION else target0
    let w := adjust_audio_length c.env target SAMPLE_RATE msf
    { st with segments := st.segments ++ [w], total := st.total + w.length,
              late_starts := st.late_starts + (if late then 1 else 0) }

/-- One full iteration of the synchronization loop for one cue. -/
def processCue (msf : ℚ) (st : EngineState) (c : Cue) : EngineState :=
  mainStep msf (preGapStep st c) c

/-- The synchronization pass over a cue list. -/
def runEngine (msf : ℚ) (cues : List Cue) : EngineState :=
  cues.foldl (processCue msf) initState

/-- Final padding step of main.py: when a positive target duration was
supplied and more than FINAL_PADDING_THRESHOLD seconds are missing, append
that much silence; an overrun only warns, the state is never truncated. -/
def finalPad (target : ℚ) (st : EngineState) : EngineState :=
  if 0 < target then
    let missing := target - clockSec st.total
    if FINAL_PADDING_THRESHOLD < missing then
      let n := (pyInt (missing * (SAMPLE_RATE : ℚ))).toNat
      { st with segments := st.segments ++ [silence n], total := st.total + n }
    else st
  else st

/-- The synchronization pass followed by the final padding step. -/
def runFull (msf target : ℚ) (cues : List Cue) : EngineState :=
  finalPad target (runEngine msf cues)

/-- State of the first collection pass of srt_to_audio_numpy: the
segments_to_generate list (text and cue index; the cache destination is
determined by the text), the key set of the text_to_cache dictionary in
insertion order, and the counters this pass touches. -/
structure PassState where
  sched : List (Text × ℕ)
  seen : List Text
  emptyCount : ℕ
  cachedCount : ℕ
  resumedCount : ℕ

/-- Initial collection-pass state. -/
def initPass : PassState := ⟨[], [], 0, 0, 0⟩

/-- One iteration of the collection pass for cue c at index i: empty texts
are only counted; resume with an existing raw clip skips; a cache hit
copies (counting it) unless the copy fails, in which case the cue falls
through to scheduling; scheduling adds the text and index unless the text
was already scheduled. cacheHit is a function of the cache key, because
the cache directory does not change during this pass. -/
def passStep (resume : Bool) (cacheHit : Text → Bool) (i : ℕ) (st : PassState) (c : Cue) :
    PassState :=
  let text := normalizeText c.text
  if text = [] then { st with emptyCount := st.emptyCount + 1 }
  else if resume && c.existsRaw then { st with resumedCount := st.resumedCount + 1 }
  else if cacheHit (pyLower text) then
    if c.copyOk then { st with cachedCount := st.cachedCount + 1 }
    else if text ∈ st.seen then st
    else { st with seen := st.seen ++ [text], sched := st.sched ++ [(text, i)] }
  else if text ∈ st.seen then st
  else { st with seen := st.seen ++ [text], sched := st.sched ++ [(text, i)] }

/-- The collection pass from index i over the remaining cues. -/
def runPassAux (resume : Bool) (cacheHit : Text → Bool) : ℕ → List Cue → PassState → PassState
  | _, [], st => st
  | i, c :: cs, st => runPassAux resume cacheHit (i + 1) cs (passStep resume cacheHit i st c)

/-- The full collection pass over a cue list. -/
def runPass (resume : Bool) (cacheHit : Text → Bool) (cues : List Cue) : PassState :=
  runPassAux resume cacheHit 0 cues initPass

/-- Reference schedule: the first cue index of each distinct non-empty
text, in cue order, given the texts already seen. -/
def firstOccAux (seen : List Text) : ℕ → List Text → List (Text × ℕ)
  | _, [] => []
  | i, t :: ts =>
    if t = [] then firstOccAux seen (i + 1) ts
    else if t ∈ seen then firstOccAux seen (i + 1) ts
    else (t, i) :: firstOccAux (seen ++ [t]) (i + 1) ts

/-- Reference schedule over a text list starting from nothing seen. -/
def firstOccurrences (ts : List Text) : List (Text × ℕ) :=
  firstOccAux [] 0 ts

/-- The texts seen after the collection pass consumes a text list. -/
def seenAfter (seen : List Text) : List Text → List Text
  | [] => seen
  | t :: ts =>
    if t = [] then seenAfter seen ts
    else if t ∈ seen then seenAfter seen ts
    else seenAfter (seen ++ [t]) ts

/-- The final cache-to-raw copy loop of main.py for one cue, on a run that
started with an empty cache: an empty text is skipped, a pre-existing raw
clip is kept (modelled as none, meaning untouched), and otherwise the raw
clip of the cue becomes the cache content stored under the lowercased-text
key. -/
def copyLoopRaw (cacheContent : Text → Option Wave) (c : Cue) : Option Wave :=
  let text := normalizeText c.text
  if text = [] then none
  else if c.existsRaw then none
  else cacheContent (pyLower text)

/-! ### Basic lemmas about the duration fitter -/

lemma padCrop_length (ys : Wave) (t : ℕ) : (padCrop ys t).length = t := by
  unfold padCrop
  split_ifs with h1 h2
  · simp only [List.length_append, List.length_replicate]; omega
  · simp only [List.length_take]; omega
  · omega

lemma adjust_load_fail (env : StretchEnv) (desired : ℚ) (sr : ℕ) (msf : ℚ)
    (h : env.load = none) : adjust_audio_length env desired sr msf = [] := by
  unfold adjust_audio_length
  rw [h]

lemma adjust_success (env : StretchEnv) (y ys : Wave) (desired : ℚ) (sr : ℕ) (msf : ℚ)
    (hl : env.load = some y) (hd : 0 < desired)
    (hs : env.stretch (ratioFor y.length desired sr msf) = some ys) :
    adjust_audio_length env desired sr msf =
      padCrop ys (pyInt (desired * (sr : ℚ))).toNat := by
  unfold adjust_audio_length
  rw [hl]
  simp only [if_neg (not_le.mpr hd), hs]

lemma ratioFor_ge (yLen : ℕ) (desired : ℚ) (sr : ℕ) (msf : ℚ) :
    1 / msf ≤ ratioFor yLen desired sr msf := by
  unfold ratioFor
  dsimp only
  split_ifs with h
  · exact le_refl _
  · exact not_lt.mp h

/-! ### Claim C1 -/

/-- Fixture for the C1 counterexample: a one-sample clip that loads, and a
stretch primitive that returns a three-sample clip for every ratio. -/
def envC1 : StretchEnv := ⟨some [1/2], fun _ => some [0, 0, 0]⟩

/-- C1 counterexample: for the positive desired duration 1/15000 s at
24000 Hz, desired times rate is 1.6, so round gives 2 samples, but
adjust_audio_length pads or crops to int(desired * rate) = 1 sample: the
returned sample count is not round(D * sample_rate). -/
theorem c1_counterexample :
    0 < (1/15000 : ℚ) ∧
    (adjust_audio_length envC1 (1/15000) 24000 2).length ≠
      (round ((1/15000 : ℚ) * (24000 : ℚ))).toNat := by
  constructor
  · norm_num
  · rw [adjust_success envC1 [1/2] [0, 0, 0] (1/15000) 24000 2 rfl (by norm_num) rfl,
      padCrop_length]
    norm_num [pyInt, round_eq]
    decide

/-- C1 (amended): for every positive desired duration D, whenever the raw
clip loads and the stretch primitive succeeds, adjust_audio_length returns
a waveform whose sample count equals int(D * sample_rate), Python
truncation (the floor for positive values), not round. -/
theorem c1_theorem (env : StretchEnv) (y ys : Wave) (desired : ℚ) (sr : ℕ) (msf : ℚ)
    (hl : env.load = some y) (hd : 0 < desired)
    (hs : env.stretch (ratioFor y.length desired sr msf) = some ys) :
    (adjust_audio_length env desired sr msf).length = (pyInt (desired * (sr : ℚ))).toNat := by
  rw [adjust_success env y ys desired sr msf hl hd hs, padCrop_length]

/-- Fixture for the C1 witness. -/
def envW1 : StretchEnv := ⟨some [1, 1], fun _ => some [0, 0, 0, 0]⟩

/-- Witness for c1_theorem at a concrete input. -/
theorem c1_theorem_witness :
    envW1.load = some [1, 1] ∧ 0 < (1/2 : ℚ) ∧
    envW1.stretch (ratioFor (List.length [(1 : ℚ), 1]) (1/2) 24000 3) = some [0, 0, 0, 0] ∧
    (adjust_audio_length envW1 (1/2) 24000 3).length =
      (pyInt ((1/2 : ℚ) * ((24000 : ℕ) : ℚ))).toNat :=
  ⟨rfl, by norm_num,
   rfl, c1_theorem envW1 [1, 1] [0, 0, 0, 0] (1/2) 24000 3 rfl (by norm_num) rfl⟩

/-! ### Claim C4 -/

/-- C4: the ratio handed to the stretch primitive is never below
1 / max_speed_factor, and on the success path the returned waveform still
has exactly int(desired * sample_rate) samples even when the ratio was
clamped. -/
theorem c4_theorem (env : StretchEnv) (y ys : Wave) (desired : ℚ) (sr : ℕ) (msf : ℚ)
    (hl : env.load = some y) (hd : 0 < desired) (_hmsf : 0 < msf)
    (hs : env.stretch (ratioFor y.length desired sr msf) = some ys) :
    1 / msf ≤ ratioFor y.length desired sr msf ∧
    (adjust_audio_length env desired sr msf).length = (pyInt (desired * (sr : ℚ))).toNat :=
  ⟨ratioFor_ge _ _ _ _, by
    rw [adjust_success env y ys desired sr msf hl hd hs, padCrop_length]⟩

/-- Fixture for the C4 witness: a one-sample clip and a desired duration
far shorter than nothing at all, forcing the clamp to bite is not even
needed; the witness exercises the theorem at msf = 2. -/
def envW4 : StretchEnv := ⟨some [1], fun _ => some [0, 0]⟩

/-- Witness for c4_theorem at a concrete input. -/
theorem c4_theorem_witness :
    envW4.load = some [1] ∧ 0 < (1/100 : ℚ) ∧ 0 < (2 : ℚ) ∧
    envW4.stretch (ratioFor (List.length [(1 : ℚ)]) (1/100) 24000 2) = some [0, 0] ∧
    (1 / 2 ≤ ratioFor (List.length [(1 : ℚ)]) (1/100) 24000 2 ∧
      (adjust_audio_length envW4 (1/100) 24000 2).length =
        (pyInt ((1/100 : ℚ) * ((24000 : ℕ) : ℚ))).toNat) :=
  ⟨rfl, by norm_num, by norm_num, rfl,
   c4_theorem envW4 [1] [0, 0] (1/100) 24000 2 rfl (by norm_num) (by norm_num) rfl⟩

/-! ### Claim C10 -/

/-- C10: when the raw clip fails to load, adjust_audio_length returns the
empty waveform whatever the desired duration; in the synchronization pass
such a cue (non-empty text, generation not failed) contributes a zero
sample chunk and the clock does not advance during its fit step. -/
theorem c10_theorem (env : StretchEnv) (desired : ℚ) (sr : ℕ) (msf : ℚ)
    (st : EngineState) (c : Cue)
    (henv : env.load = none) (hcenv : c.env.load = none)
    (hne : normalizeText c.text ≠ []) (hnf : c.failed = false) :
    adjust_audio_length env desired sr msf = [] ∧
    (mainStep msf st c).segments = st.segments ++ [[]] ∧
    (mainStep msf st c).total = st.total := by
  refine ⟨adjust_load_fail env desired sr msf henv, ?_, ?_⟩ <;>
    simp [mainStep, hne, hnf, adjust_load_fail _ _ _ _ hcenv]

/-- Fixture for the C10 witness: a cue whose raw clip cannot be loaded. -/
def c10cue : Cue := ⟨0, 1, ['h', 'i'], false, true, false, ⟨none, fun _ => none⟩⟩

/-- Witness for c10_theorem at a concrete input. -/
theorem c10_theorem_witness :
    (⟨none, fun _ => none⟩ : StretchEnv).load = none ∧ c10cue.env.load = none ∧
    normalizeText c10cue.text ≠ [] ∧ c10cue.failed = false ∧
    (adjust_audio_length ⟨none, fun _ => none⟩ 1 24000 2 = [] ∧
      (mainStep 2 initState c10cue).segments = initState.segments ++ [[]] ∧
      (mainStep 2 initState c10cue).total = initState.total) :=
  ⟨rfl, rfl, by decide, rfl,
   c10_theorem ⟨none, fun _ => none⟩ 1 24000 2 initState c10cue rfl rfl (by decide) rfl⟩

/-! ### Lemmas about the synchronization pass -/

lemma silence_length (n : ℕ) : (silence n).length = n := by
  simp [silence]

lemma sumLen_append (l : List Wave) (w : Wave) :
    sumLen (l ++ [w]) = sumLen l + w.length := by
  simp [sumLen]

lemma take_append_self (l m : List Wave) : (l ++ m).take l.length = l := by
  simp

lemma preGap_total_mono (st : EngineState) (c : Cue) :
    st.total ≤ (preGapStep st c).total := by
  unfold preGapStep
  dsimp only
  split_ifs <;> simp

lemma preGap_delta (st : EngineState) (c : Cue) :
    (preGapStep st c).total + sumLen st.segments
      = st.total + sumLen (preGapStep st c).segments := by
  unfold preGapStep
  dsimp only
  split_ifs <;> simp [sumLen_append, silence_length] <;> omega

lemma mainStep_total_mono (msf : ℚ) (st : EngineState) (c : Cue) :
    st.total ≤ (mainStep msf st c).total := by
  unfold mainStep
  dsimp only
  split_ifs <;> simp

lemma mainStep_delta (msf : ℚ) (st : EngineState) (c : Cue) :
    (mainStep msf st c).total + sumLen st.segments
      = st.total + sumLen (mainStep msf st c).segments := by
  unfold mainStep
  dsimp only
  split_ifs <;> simp [sumLen_append, silence_length] <;> omega

lemma processCue_total_mono (msf : ℚ) (st : EngineState) (c : Cue) :
    st.total ≤ (processCue msf st c).total :=
  le_trans (preGap_total_mono st c) (mainStep_total_mono msf (preGapStep st c) c)

lemma processCue_delta (msf : ℚ) (st : EngineState) (c : Cue) :
    (processCue msf st c).total + sumLen st.segments
      = st.total + sumLen (processCue msf st c).segments := by
  have h1 := preGap_delta st c
  have h2 := mainStep_delta msf (preGapStep st c) c
  unfold processCue
  omega

lemma foldl_total_mono (msf : ℚ) :
    ∀ (cs : List Cue) (st : EngineState), st.total ≤ (cs.foldl (processCue msf) st).total
  | [], _ => le_refl _
  | c :: cs, st =>
    le_trans (processCue_total_mono msf st c) (foldl_total_mono msf cs (processCue msf st c))

lemma foldl_delta (msf : ℚ) :
    ∀ (cs : List Cue) (st : EngineState),
      (cs.foldl (processCue msf) st).total + sumLen st.segments
        = st.total + sumLen (cs.foldl (processCue msf) st).segments
  | [], _ => rfl
  | c :: cs, st => by
    have h1 := processCue_delta msf st c
    have h2 := foldl_delta msf cs (processCue msf st c)
    simp only [List.foldl_cons] at *
    omega

lemma finalPad_total_mono (target : ℚ) (st : EngineState) :
    st.total ≤ (finalPad target st).total := by
  unfold finalPad
  dsimp only
  split_ifs <;> simp

lemma finalPad_delta (target : ℚ) (st : EngineState) :
    (finalPad target st).total + sumLen st.segments
      = st.total + sumLen (finalPad target st).segments := by
  unfold finalPad
  dsimp only
  split_ifs <;> simp [sumLen_append, silence_length] <;> omega

lemma finalPad_take (target : ℚ) (st : EngineState) :
    (finalPad target st).segments.take st.segments.length = st.segments := by
  unfold finalPad
  dsimp only
  split_ifs <;> simp [take_append_self]

/-! ### Claim C3 -/

/-- C3: the output clock never moves backward at any step of the
synchronization pass (overlap included), the clock change of a step always
equals the sample count of the chunks the step appends, and at the end of
the full pass (final padding included) the clock equals the sum of the
sample counts of all appended chunks; with the delta equation this gives
that the clock equals, hence never exceeds, the accumulated duration after
every append. -/
theorem c3_theorem (msf target : ℚ) (st : EngineState) (c : Cue) (cues : List Cue)
    (_hwfc : WFCue c) (_hwf : WFCues cues) :
    st.total ≤ (processCue msf st c).total ∧
    (processCue msf st c).total + sumLen st.segments
      = st.total + sumLen (processCue msf st c).segments ∧
    (runFull msf target cues).total = sumLen (runFull msf target cues).segments ∧
    (runEngine msf cues).total ≤ (runFull msf target cues).total := by
  refine ⟨processCue_total_mono msf st c, processCue_delta msf st c, ?_,
    finalPad_total_mono target (runEngine msf cues)⟩
  have h1 : (runEngine msf cues).total = sumLen (runEngine msf cues).segments := by
    have h := foldl_delta msf cues initState
    simp only [initState] at h
    simpa [runEngine, initState, sumLen] using h
  have h2 := finalPad_delta target (runEngine msf cues)
  unfold runFull
  omega

/-- Fixture: a well-formed cue whose raw clip loads and stretches. -/
def wfCueA : Cue := ⟨0, 1, ['h', 'i'], false, true, false, ⟨some [1], fun _ => some [0, 0]⟩⟩

lemma wfCueA_wf : WFCue wfCueA := by
  unfold WFCue wfCueA
  exact ⟨by norm_num, by norm_num, by simp⟩

lemma wfCuesA_wf : WFCues [wfCueA] := by
  unfold WFCues
  intro x hx
  simp only [List.mem_singleton] at hx
  subst hx
  exact wfCueA_wf

/-- Witness for c3_theorem at a concrete input. -/
theorem c3_theorem_witness :
    WFCue wfCueA ∧ WFCues [wfCueA] ∧
    (initState.total ≤ (processCue 2 initState wfCueA).total ∧
      (processCue 2 initState wfCueA).total + sumLen initState.segments
        = initState.total + sumLen (processCue 2 initState wfCueA).segments ∧
      (runFull 2 0 [wfCueA]).total = sumLen (runFull 2 0 [wfCueA]).segments ∧
      (runEngine 2 [wfCueA]).total ≤ (runFull 2 0 [wfCueA]).total) :=
  ⟨wfCueA_wf, wfCuesA_wf, c3_theorem 2 0 initState wfCueA [wfCueA] wfCueA_wf wfCuesA_wf⟩

/-! ### Claim C9 -/

/-- C9: after all cues, when a positive external target duration is
supplied and the missing time exceeds FINAL_PADDING_THRESHOLD, exactly
int(missing * SAMPLE_RATE) samples of trailing silence are appended and
the clock advances by exactly that amount; and for every state and target
the final step never decreases the clock and never truncates the buffer
(the old chunk list is a prefix of the new one). -/
theorem c9_theorem (st : EngineState) (target : ℚ) (st2 : EngineState) (t2 : ℚ)
    (ht : 0 < target)
    (hm : FINAL_PADDING_THRESHOLD < target - clockSec st.total) :
    (finalPad target st).segments
      = st.segments
          ++ [silence (pyInt ((target - clockSec st.total) * (SAMPLE_RATE : ℚ))).toNat] ∧
    (finalPad target st).total
      = st.total + (pyInt ((target - clockSec st.total) * (SAMPLE_RATE : ℚ))).toNat ∧
    st2.total ≤ (finalPad t2 st2).total ∧
    (finalPad t2 st2).segments.take st2.segments.length = st2.segments := by
  refine ⟨?_, ?_, finalPad_total_mono t2 st2, finalPad_take t2 st2⟩ <;>
    · unfold finalPad
      dsimp only
      rw [if_pos ht, if_pos hm]

/-- Fixture for the C9 witness: nine seconds of audio accumulated. -/
def stC9 : EngineState := ⟨[silence 216000], 216000, 0, 0, 0⟩

/-- Witness for c9_theorem at the target-duration scenario of the spec:
target 10 s, accumulated 9 s, so exactly 1 s = 24000 samples of padding. -/
theorem c9_theorem_witness :
    0 < (10 : ℚ) ∧ FINAL_PADDING_THRESHOLD < 10 - clockSec stC9.total ∧
    ((finalPad 10 stC9).segments
        = stC9.segments
            ++ [silence (pyInt ((10 - clockSec stC9.total) * (SAMPLE_RATE : ℚ))).toNat] ∧
      (finalPad 10 stC9).total
        = stC9.total + (pyInt ((10 - clockSec stC9.total) * (SAMPLE_RATE : ℚ))).toNat ∧
      stC9.total ≤ (finalPad 10 stC9).total ∧
      (finalPad 10 stC9).segments.take stC9.segments.length = stC9.segments) :=
  ⟨by norm_num,
   by norm_num [FINAL_PADDING_THRESHOLD, clockSec, stC9, SAMPLE_RATE],
   c9_theorem stC9 10 stC9 10 (by norm_num)
     (by norm_num [FINAL_PADDING_THRESHOLD, clockSec, stC9, SAMPLE_RATE])⟩

/-! ### Chunk-count lemmas -/

lemma preGap_append (st : EngineState) (c : Cue) :
    ∃ l, (preGapStep st c).segments = st.segments ++ l := by
  unfold preGapStep
  dsimp only
  split_ifs <;> first | exact ⟨_, rfl⟩ | exact ⟨[], by simp⟩

lemma mainStep_append (msf : ℚ) (st : EngineState) (c : Cue) :
    ∃ l, (mainStep msf st c).segments = st.segments ++ l := by
  unfold mainStep
  dsimp only
  split_ifs <;> first | exact ⟨_, rfl⟩ | exact ⟨[], by simp⟩

lemma processCue_append (msf : ℚ) (st : EngineState) (c : Cue) :
    ∃ l, (processCue msf st c).segments = st.segments ++ l := by
  obtain ⟨l1, h1⟩ := preGap_append st c
  obtain ⟨l2, h2⟩ := mainStep_append msf (preGapStep st c) c
  refine ⟨l1 ++ l2, ?_⟩
  unfold processCue
  rw [h2, h1, List.append_assoc]

lemma processCue_take (msf : ℚ) (st : EngineState) (c : Cue) :
    (processCue msf st c).segments.take st.segments.length = st.segments := by
  obtain ⟨l, h⟩ := processCue_append msf st c
  rw [h]
  exact take_append_self _ _

lemma preGap_len (st : EngineState) (c : Cue) :
    (preGapStep st c).segments.length
      = st.segments.length + (if 0 < c.start_sec - clockSec st.total then 1 else 0) := by
  unfold preGapStep
  dsimp only
  split_ifs <;> simp

lemma mainStep_len (msf : ℚ) (st : EngineState) (c : Cue) :
    (mainStep msf st c).segments.length
      = st.segments.length
        + (if normalizeText c.text = [] then
             (if 0 < c.end_sec - clockSec st.total then 1 else 0)
           else 1) := by
  unfold mainStep
  dsimp only
  split_ifs <;> simp

lemma processCue_len (msf : ℚ) (st : EngineState) (c : Cue) :
    (processCue msf st c).segments.length
      = st.segments.length
        + (if 0 < c.start_sec - clockSec st.total then 1 else 0)
        + (if normalizeText c.text = [] then
             (if 0 < c.end_sec - clockSec (preGapStep st c).total then 1 else 0)
           else 1) := by
  unfold processCue
  rw [mainStep_len, preGap_len]

lemma processCue_len_le (msf : ℚ) (st : EngineState) (c : Cue) :
    (processCue msf st c).segments.length ≤ st.segments.length + 2 := by
  rw [processCue_len]
  split_ifs <;> omega

lemma foldl_len (msf : ℚ) :
    ∀ (cs : List Cue) (st : EngineState),
      (cs.foldl (processCue msf) st).segments.length ≤ st.segments.length + 2 * cs.length
  | [], _ => by simp
  | c :: cs, st => by
    have h1 := processCue_len_le msf st c
    have h2 := foldl_len msf cs (processCue msf st c)
    simp only [List.foldl_cons, List.length_cons] at *
    omega

lemma finalPad_len_le (target : ℚ) (st : EngineState) :
    (finalPad target st).segments.length ≤ st.segments.length + 1 := by
  unfold finalPad
  dsimp only
  split_ifs <;> simp

/-! ### Claim C2 -/

/-- Fixture for the C2 counterexample: an empty-text cue whose end time is
not ahead of the output clock. -/
def c2cue : Cue := ⟨0, 0, [], false, true, false, ⟨some [1], fun _ => some [0]⟩⟩

/-- C2 counterexample: a single cue with empty text and end time 0 s
contributes no chunk at all — the full run over one cue appends zero
chunks, refuting the claimed one chunk per cue. -/
theorem c2_counterexample :
    (runFull 2 0 [c2cue]).segments.length = 0 ∧ [c2cue].length = 1 := by
  constructor
  · norm_num [runFull, runEngine, processCue, preGapStep, mainStep, finalPad, initState,
      clockSec, c2cue, normalizeText, pyStrip, OVERLAP_THRESHOLD, SAMPLE_RATE]
  · rfl

/-- C2 (amended): a cue appends at most one pre-gap silence chunk (exactly
one when its start time is ahead of the clock) and at most one content
chunk — exactly one except an empty-text cue whose end time is not ahead
of the clock after pre-gap handling, which appends none. Chunks are only
appended at the tail, so cue order is preserved, and a full run appends at
most 2n + 1 chunks (the final padding chunk included). -/
theorem c2_theorem (msf target : ℚ) (st : EngineState) (c : Cue) (cues : List Cue)
    (_hwfc : WFCue c) (_hwf : WFCues cues) :
    (processCue msf st c).segments.take st.segments.length = st.segments ∧
    (processCue msf st c).segments.length
      = st.segments.length
        + (if 0 < c.start_sec - clockSec st.total then 1 else 0)
        + (if normalizeText c.text = [] then
             (if 0 < c.end_sec - clockSec (preGapStep st c).total then 1 else 0)
           else 1) ∧
    (runFull msf target cues).segments.length ≤ 2 * cues.length + 1 := by
  refine ⟨processCue_take msf st c, processCue_len msf st c, ?_⟩
  have h1 := foldl_len msf cues initState
  have h2 := finalPad_len_le target (runEngine msf cues)
  have h0 : initState.segments.length = 0 := rfl
  unfold runFull runEngine at *
  omega

/-- Witness for c2_theorem at a concrete input. -/
theorem c2_theorem_witness :
    WFCue wfCueA ∧ WFCues [wfCueA] ∧
    ((processCue 2 initState wfCueA).segments.take initState.segments.length
        = initState.segments ∧
      (processCue 2 initState wfCueA).segments.length
        = initState.segments.length
          + (if 0 < wfCueA.start_sec - clockSec initState.total then 1 else 0)
          + (if normalizeText wfCueA.text = [] then
               (if 0 < wfCueA.end_sec - clockSec (preGapStep initState wfCueA).total then 1
                else 0)
             else 1) ∧
      (runFull 2 0 [wfCueA]).segments.length ≤ 2 * [wfCueA].length + 1) :=
  ⟨wfCueA_wf, wfCuesA_wf, c2_theorem 2 0 initState wfCueA [wfCueA] wfCueA_wf wfCuesA_wf⟩

/-! ### Claim C7 -/

lemma genRetryAux_fail {E : Type} (ae : ℕ → Option E) (hf : ∀ j, ae j ≠ none) :
    ∀ (i fuel : ℕ), genRetryAux ae i fuel ≠ none
  | i, 0 => hf i
  | i, fuel + 1 => by
    unfold genRetryAux
    cases hae : ae i with
    | none => exact absurd hae (hf i)
    | some e => exact genRetryAux_fail ae hf (i + 1) fuel

/-- C7: when every attempt for a submitted cue fails, the batch still maps
that cue index to a recorded (non-success) outcome instead of aborting;
and in the synchronization pass a cue whose recorded outcome is a failure
appends exactly int(span * SAMPLE_RATE) samples of silence — span seconds
quantized to samples — and advances the clock by exactly that amount. -/
theorem c7_theorem {E : Type} (items : List ℕ) (ae : ℕ → ℕ → Option E) (retries idx : ℕ)
    (msf : ℚ) (st : EngineState) (c : Cue)
    (hidx : idx ∈ items) (hfail : ∀ j, ae idx j ≠ none)
    (hne : normalizeText c.text ≠ []) (hcf : c.failed = true)
    (_hspan : 0 ≤ c.end_sec - c.start_sec) :
    ((idx, generate_audio_segment (ae idx) retries) ∈ generate_audio_batch items ae retries
      ∧ generate_audio_segment (ae idx) retries ≠ none) ∧
    (mainStep msf st c).segments
      = st.segments
          ++ [silence (pyInt ((c.end_sec - c.start_sec) * (SAMPLE_RATE : ℚ))).toNat] ∧
    (mainStep msf st c).total
      = st.total + (pyInt ((c.end_sec - c.start_sec) * (SAMPLE_RATE : ℚ))).toNat := by
  refine ⟨⟨List.mem_map_of_mem _ hidx, genRetryAux_fail (ae idx) hfail 0 retries⟩, ?_, ?_⟩ <;>
    simp [mainStep, hne, hcf]

/-- Fixture for the C7 witness: a failed cue with one second span. -/
def c7cue : Cue := ⟨1, 2, ['h', 'i'], false, true, true, ⟨some [1], fun _ => some [0]⟩⟩

/-- Witness for c7_theorem at a concrete input. -/
theorem c7_theorem_witness :
    (5 ∈ [5] ∧ ∀ j, (fun (_ : ℕ) (_ : ℕ) => (some 0 : Option ℕ)) 5 j ≠ none) ∧
    normalizeText c7cue.text ≠ [] ∧ c7cue.failed = true ∧
    0 ≤ c7cue.end_sec - c7cue.start_sec ∧
    (((5, generate_audio_segment ((fun (_ : ℕ) (_ : ℕ) => (some 0 : Option ℕ)) 5) 10)
        ∈ generate_audio_batch [5] (fun (_ : ℕ) (_ : ℕ) => (some 0 : Option ℕ)) 10
      ∧ generate_audio_segment ((fun (_ : ℕ) (_ : ℕ) => (some 0 : Option ℕ)) 5) 10 ≠ none) ∧
     (mainStep 2 initState c7cue).segments
        = initState.segments
            ++ [silence (pyInt ((c7cue.end_sec - c7cue.start_sec) * (SAMPLE_RATE : ℚ))).toNat] ∧
     (mainStep 2 initState c7cue).total
        = initState.total
            + (pyInt ((c7cue.end_sec - c7cue.start_sec) * (SAMPLE_RATE : ℚ))).toNat) :=
  ⟨⟨List.Mem.head _, fun _ h => Option.noConfusion h⟩,
   by decide, rfl, by norm_num [c7cue],
   c7_theorem [5] (fun (_ : ℕ) (_ : ℕ) => (some 0 : Option ℕ)) 10 5 2 initState c7cue
     (List.Mem.head _) (fun _ h => Option.noConfusion h)
     (by decide) rfl (by norm_num [c7cue])⟩

/-! ### Claim C8 -/

lemma passStep_empty (resume : Bool) (ch : Text → Bool) (i : ℕ) (st : PassState) (c : Cue) :
    (passStep resume ch i st c).emptyCount
      = st.emptyCount + (if normalizeText c.text = [] then 1 else 0) := by
  unfold passStep
  dsimp only
  split_ifs <;> simp

lemma runPassAux_empty (resume : Bool) (ch : Text → Bool) :
    ∀ (cs : List Cue) (i : ℕ) (st : PassState),
      (runPassAux resume ch i cs st).emptyCount
        = st.emptyCount + (cs.countP fun c => normalizeText c.text == [])
  | [], _, _ => by simp [runPassAux]
  | c :: cs, i, st => by
    rw [runPassAux, runPassAux_empty resume ch cs (i + 1) _, passStep_empty]
    simp only [List.countP_cons]
    by_cases h : normalizeText c.text = [] <;> simp [h] <;> omega

lemma preGap_stats_empty (st : EngineState) (c : Cue) :
    (preGapStep st c).empty = st.empty := by
  unfold preGapStep
  dsimp only
  split_ifs <;> rfl

lemma mainStep_stats_empty (msf : ℚ) (st : EngineState) (c : Cue) :
    (mainStep msf st c).empty
      = st.empty + (if normalizeText c.text = [] then 1 else 0) := by
  unfold mainStep
  dsimp only
  split_ifs <;> simp

lemma processCue_stats_empty (msf : ℚ) (st : EngineState) (c : Cue) :
    (processCue msf st c).empty
      = st.empty + (if normalizeText c.text = [] then 1 else 0) := by
  unfold processCue
  rw [mainStep_stats_empty, preGap_stats_empty]

lemma foldl_stats_empty (msf : ℚ) :
    ∀ (cs : List Cue) (st : EngineState),
      (cs.foldl (processCue msf) st).empty
        = st.empty + (cs.countP fun c => normalizeText c.text == [])
  | [], _ => by simp
  | c :: cs, st => by
    have h1 := processCue_stats_empty msf st c
    have h2 := foldl_stats_empty msf cs (processCue msf st c)
    simp only [List.foldl_cons, List.countP_cons] at *
    by_cases h : normalizeText c.text = [] <;> simp [h] at * <;> omega

/-- Fixture for the C8 counterexample: one empty-text cue from 0 s to 2 s. -/
def c8cue : Cue := ⟨0, 2, [], false, true, false, ⟨some [1], fun _ => some [0]⟩⟩

/-- C8 counterexample: a run over a single empty-text cue counts it once
in the collection pass and once more in the synchronization pass, so the
final empty statistic is 2, not 1 — each empty cue is counted twice. -/
theorem c8_counterexample :
    (runPass false (fun _ => false) [c8cue]).emptyCount + (runEngine 2 [c8cue]).empty = 2 ∧
    ([c8cue].countP fun x => normalizeText x.text == []) = 1 := by
  constructor
  · unfold runPass runEngine
    rw [runPassAux_empty false (fun _ => false) [c8cue] 0 initPass,
      foldl_stats_empty 2 [c8cue] initState]
    decide
  · decide

/-- C8 (amended): an empty-text cue whose end time lies ahead of the clock
gets silence of exactly int((end - clock) * SAMPLE_RATE) samples appended,
advancing the clock to its end time up to sample quantization, and is
recorded as empty — but it is recorded in both the collection pass and the
synchronization pass, so the final empty statistic equals twice the number
of empty-text cues (2, not 1, in the three-cue scenario of the spec). -/
theorem c8_theorem (resume : Bool) (cacheHit : Text → Bool) (msf : ℚ) (cues : List Cue)
    (st : EngineState) (c : Cue)
    (hemp : normalizeText c.text = [])
    (hpos : clockSec st.total < c.end_sec) :
    (runPass resume cacheHit cues).emptyCount + (runEngine msf cues).empty
      = 2 * (cues.countP fun x => normalizeText x.text == []) ∧
    (mainStep msf st c).segments
      = st.segments
          ++ [silence (pyInt ((c.end_sec - clockSec st.total) * (SAMPLE_RATE : ℚ))).toNat] ∧
    (mainStep msf st c).total
      = st.total + (pyInt ((c.end_sec - clockSec st.total) * (SAMPLE_RATE : ℚ))).toNat ∧
    (mainStep msf st c).empty = st.empty + 1 := by
  have hcond : 0 < c.end_sec - clockSec st.total := sub_pos.mpr hpos
  refine ⟨?_, ?_, ?_, ?_⟩
  · unfold runPass runEngine
    rw [runPassAux_empty resume cacheHit cues 0 initPass, foldl_stats_empty msf cues initState]
    simp only [initPass, initState]
    omega
  all_goals simp [mainStep, hemp, hcond]

/-- Fixture for the C8 witness: one empty cue and one spoken cue. -/
def c8wcue : Cue := ⟨0, 1, [], false, true, false, ⟨some [1], fun _ => some [0]⟩⟩

/-- Witness for c8_theorem at a concrete input. -/
theorem c8_theorem_witness :
    normalizeText c8wcue.text = [] ∧ clockSec initState.total < c8wcue.end_sec ∧
    ((runPass false (fun _ => false) [c8wcue]).emptyCount
        + (runEngine 2 [c8wcue]).empty
      = 2 * ([c8wcue].countP fun x => normalizeText x.text == []) ∧
     (mainStep 2 initState c8wcue).segments
        = initState.segments
            ++ [silence
                (pyInt ((c8wcue.end_sec - clockSec initState.total) * (SAMPLE_RATE : ℚ))).toNat] ∧
     (mainStep 2 initState c8wcue).total
        = initState.total
            + (pyInt ((c8wcue.end_sec - clockSec initState.total) * (SAMPLE_RATE : ℚ))).toNat ∧
     (mainStep 2 initState c8wcue).empty = initState.empty + 1) :=
  ⟨by decide, by norm_num [clockSec, initState, c8wcue],
   c8_theorem false (fun _ => false) 2 [c8wcue] initState c8wcue (by decide)
     (by norm_num [clockSec, initState, c8wcue])⟩

/-! ### Collection-pass lemmas -/

lemma passStep_seen_sub (resume : Bool) (ch : Text → Bool) (i : ℕ) (st : PassState) (c : Cue) :
    ∀ t ∈ st.seen, t ∈ (passStep resume ch i st c).seen := by
  intro t ht
  unfold passStep
  dsimp only
  split_ifs <;> simp [ht]

lemma passStep_inv (resume : Bool) (ch : Text → Bool) (i : ℕ) (st : PassState) (c : Cue)
    (h : ∀ t ∈ st.seen, t ∈ st.sched.map Prod.fst) :
    ∀ t ∈ (passStep resume ch i st c).seen,
      t ∈ (passStep resume ch i st c).sched.map Prod.fst := by
  unfold passStep
  dsimp only
  split_ifs <;> intro t ht <;>
    first
      | exact h t ht
      | · simp only [List.mem_append, List.mem_singleton] at ht
          rcases ht with ht | rfl
          · simp only [List.map_append, List.mem_append]
            exact Or.inl (h t ht)
          · simp

lemma passStep_ensures (resume : Bool) (ch : Text → Bool) (i : ℕ) (st : PassState) (c : Cue)
    (hne : normalizeText c.text ≠ [])
    (hnr : (resume && c.existsRaw) = false)
    (hhit : ch (pyLower (normalizeText c.text)) = true)
    (hcopy : c.copyOk = false) :
    normalizeText c.text ∈ (passStep resume ch i st c).seen := by
  by_cases hseen : normalizeText c.text ∈ st.seen <;>
    simp [passStep, hne, hnr, hhit, hcopy, hseen]

lemma runPassAux_seen_sub (resume : Bool) (ch : Text → Bool) :
    ∀ (cs : List Cue) (i : ℕ) (st : PassState),
      ∀ t ∈ st.seen, t ∈ (runPassAux resume ch i cs st).seen
  | [], _, _ => fun _ ht => ht
  | c :: cs, i, st => fun t ht =>
    runPassAux_seen_sub resume ch cs (i + 1) (passStep resume ch i st c) t
      (passStep_seen_sub resume ch i st c t ht)

lemma runPassAux_inv (resume : Bool) (ch : Text → Bool) :
    ∀ (cs : List Cue) (i : ℕ) (st : PassState),
      (∀ t ∈ st.seen, t ∈ st.sched.map Prod.fst) →
      ∀ t ∈ (runPassAux resume ch i cs st).seen,
        t ∈ (runPassAux resume ch i cs st).sched.map Prod.fst
  | [], _, _ => fun h => h
  | c :: cs, i, st => fun h =>
    runPassAux_inv resume ch cs (i + 1) (passStep resume ch i st c)
      (passStep_inv resume ch i st c h)

lemma c6_aux (resume : Bool) (ch : Text → Bool) :
    ∀ (cs : List Cue) (i : ℕ) (st : PassState),
      (∀ t ∈ st.seen, t ∈ st.sched.map Prod.fst) →
      ∀ c ∈ cs, normalizeText c.text ≠ [] → (resume && c.existsRaw) = false →
        ch (pyLower (normalizeText c.text)) = true → c.copyOk = false →
        normalizeText c.text ∈ (runPassAux resume ch i cs st).sched.map Prod.fst
  | [], _, _ => by
    intro _ c hc
    exact absurd hc (List.not_mem_nil c)
  | c :: cs, i, st => by
    intro hinv x hx hne hnr hhit hcopy
    simp only [runPassAux]
    rcases List.mem_cons.mp hx with rfl | hx2
    · have hseen : normalizeText x.text ∈ (passStep resume ch i st x).seen :=
        passStep_ensures resume ch i st x hne hnr hhit hcopy
      have hseen2 := runPassAux_seen_sub resume ch cs (i + 1)
        (passStep resume ch i st x) (normalizeText x.text) hseen
      exact runPassAux_inv resume ch cs (i + 1) (passStep resume ch i st x)
        (passStep_inv resume ch i st x hinv) (normalizeText x.text) hseen2
    · exact c6_aux resume ch cs (i + 1) (passStep resume ch i st c)
        (passStep_inv resume ch i st c hinv) x hx2 hne hnr hhit hcopy

/-! ### Claim C6 -/

/-- C6: for every cue whose cache lookup hits but whose copy to the
per-cue location fails, a generation entry for that cue text is present in
the final schedule — either appended by this cue falling through, or
already appended by an earlier cue with the same text (the dictionary key
set and the schedule grow in lockstep), so a generation attempt for the
text is always scheduled rather than the run failing. -/
theorem c6_theorem (resume : Bool) (cacheHit : Text → Bool) (cues : List Cue) (c : Cue)
    (hc : c ∈ cues) (hne : normalizeText c.text ≠ [])
    (hnr : (resume && c.existsRaw) = false)
    (hhit : cacheHit (pyLower (normalizeText c.text)) = true)
    (hcopy : c.copyOk = false) :
    normalizeText c.text ∈ (runPass resume cacheHit cues).sched.map Prod.fst := by
  unfold runPass
  refine c6_aux resume cacheHit cues 0 initPass ?_ c hc hne hnr hhit hcopy
  intro t ht
  simp [initPass] at ht

/-- Fixture for the C6 witness: a cue whose cache copy fails. -/
def c6cue : Cue := ⟨0, 1, ['H', 'i'], false, false, false, ⟨some [1], fun _ => some [0]⟩⟩

/-- Witness for c6_theorem at a concrete input. -/
theorem c6_theorem_witness :
    c6cue ∈ [c6cue] ∧ normalizeText c6cue.text ≠ [] ∧
    (false && c6cue.existsRaw) = false ∧
    (fun t => t == ['h', 'i']) (pyLower (normalizeText c6cue.text)) = true ∧
    c6cue.copyOk = false ∧
    normalizeText c6cue.text
      ∈ (runPass false (fun t => t == ['h', 'i']) [c6cue]).sched.map Prod.fst :=
  ⟨List.Mem.head _, by decide, rfl, by decide, rfl,
   c6_theorem false (fun t => t == ['h', 'i']) [c6cue] c6cue (List.Mem.head _)
     (by decide) rfl (by decide) rfl⟩

/-! ### Dedup-schedule lemmas (empty cache, no resume hits) -/

lemma runPassAux_sched_noCache :
    ∀ (cs : List Cue) (i : ℕ) (st : PassState),
      (runPassAux false (fun _ => false) i cs st).sched
        = st.sched ++ firstOccAux st.seen i (cs.map fun c => normalizeText c.text) ∧
      (runPassAux false (fun _ => false) i cs st).seen
        = seenAfter st.seen (cs.map fun c => normalizeText c.text)
  | [], i, st => by simp [runPassAux, firstOccAux, seenAfter]
  | c :: cs, i, st => by
    simp only [runPassAux, List.map_cons]
    by_cases hemp : normalizeText c.text = []
    · have hstep : passStep false (fun _ => false) i st c
          = { st with emptyCount := st.emptyCount + 1 } := by
        simp [passStep, hemp]
      have IH := runPassAux_sched_noCache cs (i + 1) (passStep false (fun _ => false) i st c)
      rw [hstep] at IH
      rw [hstep]
      exact ⟨by rw [IH.1]; simp [firstOccAux, hemp],
             by rw [IH.2]; simp [seenAfter, hemp]⟩
    · by_cases hseen : normalizeText c.text ∈ st.seen
      · have hstep : passStep false (fun _ => false) i st c = st := by
          simp [passStep, hemp, hseen]
        have IH := runPassAux_sched_noCache cs (i + 1) (passStep false (fun _ => false) i st c)
        rw [hstep] at IH
        rw [hstep]
        exact ⟨by rw [IH.1]; simp [firstOccAux, hemp, hseen],
               by rw [IH.2]; simp [seenAfter, hemp, hseen]⟩
      · have hstep : passStep false (fun _ => false) i st c
            = { st with seen := st.seen ++ [normalizeText c.text],
                        sched := st.sched ++ [(normalizeText c.text, i)] } := by
          simp [passStep, hemp, hseen]
        have IH := runPassAux_sched_noCache cs (i + 1) (passStep false (fun _ => false) i st c)
        rw [hstep] at IH
        rw [hstep]
        refine ⟨?_, ?_⟩
        · rw [IH.1]
          simp [firstOccAux, hemp, hseen]
        · rw [IH.2]
          simp [seenAfter, hemp, hseen]

lemma firstOccAux_length :
    ∀ (ts : List Text) (seen : List Text) (i : ℕ),
      (firstOccAux seen i ts).length
        = ((ts.toFinset.erase ([] : Text)) \ seen.toFinset).card
  | [], seen, i => by simp [firstOccAux]
  | t :: ts, seen, i => by
    by_cases hemp : t = []
    · subst hemp
      rw [firstOccAux, if_pos rfl, firstOccAux_length ts seen (i + 1)]
      simp [Finset.erase_insert_eq_erase]
    · by_cases hseen : t ∈ seen
      · rw [firstOccAux, if_neg hemp, if_pos hseen, firstOccAux_length ts seen (i + 1)]
        rw [List.toFinset_cons, Finset.erase_insert_of_ne hemp,
          Finset.insert_sdiff_of_mem _ (List.mem_toFinset.mpr hseen)]
      · rw [firstOccAux, if_neg hemp, if_neg hseen]
        simp only [List.length_cons, firstOccAux_length ts (seen ++ [t]) (i + 1)]
        rw [List.toFinset_cons, Finset.erase_insert_of_ne hemp]
        have hts : (seen ++ [t]).toFinset = insert t seen.toFinset := by
          simp [List.toFinset_append, Finset.union_comm, Finset.insert_eq]
        rw [hts, Finset.sdiff_insert,
          Finset.insert_sdiff_of_not_mem _ (fun hmem => hseen (List.mem_toFinset.mp hmem))]
        by_cases hx : t ∈ ts.toFinset.erase ([] : Text) \ seen.toFinset
        · rw [Finset.insert_eq_self.mpr hx, Finset.card_erase_of_mem hx]
          have hpos : 0 < (ts.toFinset.erase ([] : Text) \ seen.toFinset).card :=
            Finset.card_pos.mpr ⟨t, hx⟩
          omega
        · rw [Finset.card_insert_of_not_mem hx, Finset.erase_eq_of_not_mem hx]

/-! ### Claim C5 -/

/-- Fixture for the C5 counterexample: capitalized single-spaced text. -/
def c5cueA : Cue :=
  ⟨0, 1, ['H', 'e', 'l', 'l', 'o', ' ', 'x'], false, true, false,
   ⟨some [1], fun _ => some [0]⟩⟩

/-- Fixture for the C5 counterexample: lowercase double-spaced text. -/
def c5cueB : Cue :=
  ⟨1, 2, ['h', 'e', 'l', 'l', 'o', ' ', ' ', 'x'], false, true, false,
   ⟨some [1], fun _ => some [0]⟩⟩

/-- C5 counterexample: two cues whose texts agree after lowercasing and
whitespace collapsing (the normalization the claim states), with an empty
cache and no resume, get two generation calls scheduled, not one — the
dedup dictionary is keyed by the case-sensitive text with internal
whitespace preserved. -/
theorem c5_counterexample :
    (runPass false (fun _ => false) [c5cueA, c5cueB]).sched.length = 2 ∧
    ([c5cueA, c5cueB].map fun c => specNormalize c.text).toFinset.card = 1 := by
  constructor <;> decide

/-- C5 (amended): with an empty cache and no resume hits, the number of
scheduled generation calls equals the number of distinct non-empty texts
after newline-to-space replacement and trimming — case-sensitive, internal
whitespace preserved — and the schedule is exactly the first cue of each
such distinct text in cue order; generated output is stored under the
lowercased-text cache key, and the final copy loop gives every cue sharing
that lowercased key the same cache content. -/
theorem c5_theorem (cues : List Cue) (c1 c2 : Cue) (cc : Text → Option Wave)
    (hex1 : c1.existsRaw = false) (hex2 : c2.existsRaw = false)
    (hne1 : normalizeText c1.text ≠ []) (hne2 : normalizeText c2.text ≠ [])
    (hkey : pyLower (normalizeText c1.text) = pyLower (normalizeText c2.text)) :
    (runPass false (fun _ => false) cues).sched.length
      = ((cues.map fun c => normalizeText c.text).toFinset.erase ([] : Text)).card ∧
    (runPass false (fun _ => false) cues).sched
      = firstOccurrences (cues.map fun c => normalizeText c.text) ∧
    copyLoopRaw cc c1 = copyLoopRaw cc c2 := by
  have key := runPassAux_sched_noCache cues 0 initPass
  refine ⟨?_, ?_, ?_⟩
  · unfold runPass
    rw [key.1]
    show (([] : List (Text × ℕ)) ++ firstOccAux ([] : List Text) 0 _).length = _
    rw [List.nil_append, firstOccAux_length]
    simp
  · unfold runPass firstOccurrences
    rw [key.1]
    show ([] : List (Text × ℕ)) ++ firstOccAux ([] : List Text) 0 _ = _
    rw [List.nil_append]
  · simp [copyLoopRaw, hne1, hne2, hex1, hex2, hkey]

/-- Witness for c5_theorem at a concrete input. -/
theorem c5_theorem_witness :
    c5cueA.existsRaw = false ∧ c5cueA.existsRaw = false ∧
    normalizeText c5cueA.text ≠ [] ∧ normalizeText c5cueA.text ≠ [] ∧
    pyLower (normalizeText c5cueA.text) = pyLower (normalizeText c5cueA.text) ∧
    ((runPass false (fun _ => false) [c5cueA]).sched.length
        = (([c5cueA].map fun c => normalizeText c.text).toFinset.erase ([] : Text)).card ∧
      (runPass false (fun _ => false) [c5cueA]).sched
        = firstOccurrences ([c5cueA].map fun c => normalizeText c.text) ∧
      copyLoopRaw (fun _ => some [1]) c5cueA = copyLoopRaw (fun _ => some [1]) c5cueA) :=
  ⟨rfl, rfl, by decide, by decide, rfl,
   c5_theorem [c5cueA] c5cueA c5cueA (fun _ => some [1]) rfl rfl
     (by decide) (by decide) rfl⟩
